import Mathlib

/-!
Shallow embedding of the grid-based two-player placement game of
`src/day_12.rs` (board representation, gravity placement, win detection,
seeded randomizer, HTTP-facing `place`/`random` handlers), together with
proofs of the specification claims about it.

The 5×6 tile matrix `Vec<Vec<Tile>>` is embedded as a total function
`Fin 5 → Fin 6 → Tile`; machine integers are `Nat`; the fallible
`From<Tile> for Winner` conversion (whose non-team branch is
`unreachable!()`) is embedded as an `Option`-returning function whose
`none` result models the panic.
-/

namespace Day12

/-- The two teams, `Team::Cookie` and `Team::Milk`. -/
inductive Team where
| cookie
| milk
deriving DecidableEq, Fintype

/-- A board cell: `Tile::Empty`, `Tile::Team(t)` or `Tile::Wall`. -/
inductive Tile where
| empty
| team (t : Team)
| wall
deriving DecidableEq, Fintype, Inhabited

/-- The game result once decided: `Winner::Team(t)` or `Winner::Tie`. -/
inductive Winner where
| team (t : Team)
| tie
deriving DecidableEq, Fintype

/-- The Rust `Board { tiles, winner }`: the 5×6 tile matrix plus the optional result. -/
structure Board where
  tiles : Fin 5 → Fin 6 → Tile
  winner : Option Winner

/-- Rust's `BoardConfig::playable_rows()`, the inclusive range `0..=3`. -/
def playable_rows : List (Fin 5) := [0, 1, 2, 3]

/-- Rust's `BoardConfig::playable_columns()`, the inclusive range `1..=4`. -/
def playable_columns : List (Fin 6) := [1, 2, 3, 4]

/-- The row indices `0..BoardConfig::ROWS` in iteration order. -/
def allRows : List (Fin 5) := [0, 1, 2, 3, 4]

/-- The column indices `0..BoardConfig::COLUMNS` in iteration order. -/
def allCols : List (Fin 6) := [0, 1, 2, 3, 4, 5]

/-- The conversion `From<Team> for Tile`. -/
def Tile.ofTeam : Team → Tile
| Team.cookie => Tile.team Team.cookie
| Team.milk => Tile.team Team.milk

/-- The conversion `From<Tile> for Winner`: the wildcard branch is `unreachable!()` in the
source, embedded here as `none`. -/
def Winner.ofTile : Tile → Option Winner
| Tile.team t => some (Winner.team t)
| _ => none

/-- The constructor `Board::new()`: walls on `(0..=3, 0 | 5)` and `(4, _)`, interior `Empty`,
no winner. -/
def Board.new : Board where
  tiles := fun i j =>
    if i.val ≤ 3 ∧ (j.val = 0 ∨ j.val = 5) then Tile.wall
    else if i.val = 4 then Tile.wall
    else Tile.empty
  winner := none

/-- Rust's `Board::board_full()`: no cell anywhere on the board is `Empty`. -/
def Board.board_full (b : Board) : Bool :=
  !(allRows.any fun i => allCols.any fun j => b.tiles i j == Tile.empty)

/-- Rust's `Board::free_spot(col)`: scan the rows in reverse order and return the
index of the first (i.e. the lowest) row whose cell at `col` is `Empty`. -/
def Board.free_spot (b : Board) (col : Fin 6) : Option (Fin 5) :=
  allRows.reverse.find? fun i => b.tiles i col == Tile.empty

/-- Rust's `Board::place_team(team, row, col)`: write `Tile::from(team)` at the
given position. -/
def Board.place_team (b : Board) (team : Team) (row : Fin 5) (col : Fin 6) :
    Board where
  tiles := fun i j => if i = row ∧ j = col then Tile.ofTeam team else b.tiles i j
  winner := b.winner

/-- The playable cells of a row, `row_tiles` in `winner_on_row`. -/
def Board.row_tiles (b : Board) (row : Fin 5) : List Tile :=
  playable_columns.map fun col => b.tiles row col

/-- The playable cells of a column, `column_tiles` in `winner_on_column`. -/
def Board.column_tiles (b : Board) (col : Fin 6) : List Tile :=
  playable_rows.map fun row => b.tiles row col

/-- The predicate `winner_on_row` searches with: the row's playable cells all
equal its first one (`row_tiles[0]`) and that one is not `Empty`. -/
def rowPred (b : Board) (row : Fin 5) : Bool :=
  (b.row_tiles row).all (fun tile => tile == (b.row_tiles row).headI) &&
    ((b.row_tiles row).headI != Tile.empty)

/-- The predicate `winner_on_column` searches with. -/
def colPred (b : Board) (col : Fin 6) : Bool :=
  (b.column_tiles col).all (fun tile => tile == (b.column_tiles col).headI) &&
    ((b.column_tiles col).headI != Tile.empty)

/-- Rust's `Board::winner_on_row()`: find a playable row satisfying `rowPred` and
convert its first cell (`tiles[winning_row][1]`) to a winner, yielding `none`
on a non-team cell. -/
def Board.winner_on_row (b : Board) : Option Winner :=
  (playable_rows.find? (rowPred b)).bind
    fun winning_row =>
      match b.tiles winning_row 1 with
      | Tile.team t => some (Winner.team t)
      | _ => none

/-- Rust's `Board::winner_on_column()`: the column-wise analogue, converting
`tiles[0][winning_col]`. -/
def Board.winner_on_column (b : Board) : Option Winner :=
  (playable_columns.find? (colPred b)).bind
    fun winning_col =>
      match b.tiles 0 winning_col with
      | Tile.team t => some (Winner.team t)
      | _ => none

/-- The first diagonal of the interior: cells `(row, col)` for
`playable_rows` zipped with `playable_columns`. -/
def Board.first_diagonal (b : Board) : List Tile :=
  (playable_rows.zip playable_columns).map fun rc => b.tiles rc.1 rc.2

/-- The last diagonal of the interior: `playable_rows` zipped with the
reversed `playable_columns`. -/
def Board.last_diagonal (b : Board) : List Tile :=
  (playable_rows.zip playable_columns.reverse).map fun rc => b.tiles rc.1 rc.2

/-- The guard of the first branch of `winner_on_diagonal`. -/
def Board.first_diag_guard (b : Board) : Bool :=
  b.first_diagonal.all (fun tile => tile == b.first_diagonal.headI) &&
    (b.first_diagonal.headI != Tile.empty)

/-- The guard of the second branch of `winner_on_diagonal`. -/
def Board.last_diag_guard (b : Board) : Bool :=
  b.last_diagonal.all (fun tile => tile == b.last_diagonal.headI) &&
    (b.last_diagonal.headI != Tile.empty)

/-- Rust's `Board::winner_on_diagonal()`: check the two diagonals in order; on a
satisfied guard, convert the diagonal's first tile via `Winner::from`
(embedded as `Winner.ofTile`, `none` modelling the panic). -/
def Board.winner_on_diagonal (b : Board) : Option Winner :=
  if b.first_diag_guard then Winner.ofTile b.first_diagonal.headI
  else if b.last_diag_guard then Winner.ofTile b.last_diagonal.headI
  else none

/-- Rust's `Board::set_winner()`: row check, then column, then diagonal, then tie
when the board is full; assigns the first satisfied check's result. -/
def Board.set_winner (b : Board) : Board :=
  match b.winner_on_row with
  | some w => { b with winner := some w }
  | none =>
    match b.winner_on_column with
    | some w => { b with winner := some w }
    | none =>
      match b.winner_on_diagonal with
      | some w => { b with winner := some w }
      | none =>
        if b.board_full then { b with winner := some Winner.tie }
        else { b with winner := none }

/-- The display glyph of a tile (each arm of `impl Display for Tile` writes a
single character). -/
def Tile.glyph : Tile → Char
| Tile.team Team.cookie => '🍪'
| Tile.team Team.milk => '🥛'
| Tile.empty => '⬛'
| Tile.wall => '⬜'

/-- Rust's `impl Display for Tile`, as the character sequence it writes. -/
def Tile.display (t : Tile) : List Char := [t.glyph]

/-- Rust's `impl Display for Winner`: `"{tile} wins!"` or `"No winner."`. -/
def Winner.display : Winner → List Char
| Winner.team t => (Tile.team t).display ++ " wins!".toList
| Winner.tie => "No winner.".toList

/-- Rust's `str::trim`: drop whitespace characters from both ends. -/
def rustTrim (s : List Char) : List Char :=
  ((s.dropWhile Char.isWhitespace).reverse.dropWhile Char.isWhitespace).reverse

/-- The grid part of `impl Display for Board`: each row's tiles rendered and
joined with `""`, the rows joined with `"\n"`. -/
def Board.grid (b : Board) : List Char :=
  List.intercalate ['\n']
    (allRows.map fun i => (allCols.map fun j => (b.tiles i j).display).flatten)

/-- Rust's `impl Display for Board`: `writeln!("{}\n{}", grid.trim(), winner)` when a
winner is set, `writeln!("{}", grid.trim())` otherwise. -/
def Board.display (b : Board) : List Char :=
  match b.winner with
  | some w => rustTrim b.grid ++ '\n' :: (w.display ++ ['\n'])
  | none => rustTrim b.grid ++ ['\n']

/-- The HTTP status codes the day-12 handlers produce. -/
inductive Status where
| ok
| badRequest
| serviceUnavailable
deriving DecidableEq

/-- A handler outcome: the board left behind in the shared state, the status
code and the response body. -/
structure Response where
  board : Board
  status : Status
  body : List Char

/-- The `place` handler: reject an unknown team (dead branch: `Team` is a
closed enum) or an out-of-range column with 400; reject a terminal game or a
full column with 503 and the unchanged board; otherwise drop the token at the
free spot, re-run win detection and answer 200 with the new board.  The
column-range test precedes every board access, as in the source. -/
def place (b : Board) (team : Team) (column : Nat) : Response :=
  if team ≠ Team.milk ∧ team ≠ Team.cookie then ⟨b, Status.badRequest, []⟩
  else if h : 1 ≤ column ∧ column ≤ 4 then
    if b.winner.isSome then ⟨b, Status.serviceUnavailable, b.display⟩
    else
      match b.free_spot ⟨column, by omega⟩ with
      | some row =>
        let b2 := (b.place_team team row ⟨column, by omega⟩).set_winner
        ⟨b2, Status.ok, b2.display⟩
      | none => ⟨b, Status.serviceUnavailable, b.display⟩
  else ⟨b, Status.badRequest, []⟩

/-- Modelled from the spec: the transport layer deserializes the `Team` path
segment with serde's `snake_case` names and rejects any other identifier
before the handler body runs. -/
def parseTeam (s : String) : Option Team :=
  if s = "cookie" then some Team.cookie
  else if s = "milk" then some Team.milk
  else none

/-- The `place` route including path deserialization: an unknown team
identifier is rejected as a caller error before the board is touched. -/
def placeRoute (s : String) (column : Nat) (b : Board) : Response :=
  match parseTeam s with
  | none => ⟨b, Status.badRequest, []⟩
  | some t => place b t column

/-- A deterministic boolean generator: `rand::rngs::StdRng` abstracted as a
stream of booleans together with the position of the next draw. -/
structure Rng where
  stream : Nat → Bool
  idx : Nat

/-- The draw `self.seed.gen::<bool>()`: take the next boolean and advance. -/
def Rng.genBool (r : Rng) : Bool × Rng :=
  (r.stream r.idx, { r with idx := r.idx + 1 })

/-- The Rust `RandomBoard { board, seed }`. -/
structure RandomBoard where
  board : Board
  seed : Rng

/-- One cell of `randomize_board`: walls at the border positions, otherwise a
boolean draw deciding between the two teams. -/
def drawTile (i : Fin 5) (j : Fin 6) (r : Rng) : Tile × Rng :=
  if i.val ≤ 3 ∧ (j.val = 0 ∨ j.val = 5) then (Tile.wall, r)
  else if i.val = 4 then (Tile.wall, r)
  else
    let g := r.genBool
    (if g.1 then Tile.team Team.cookie else Tile.team Team.milk, g.2)

/-- All board cells in the row-major order of the nested
`(0..ROWS).map(|i| (0..COLUMNS).map(|j| ...))` iteration. -/
def cellsRowMajor : List (Fin 5 × Fin 6) :=
  allRows.flatMap fun i => allCols.map fun j => (i, j)

/-- One step of the tile-matrix rebuild: draw the cell's tile, write it, and
keep the advanced generator. -/
def randStep (acc : (Fin 5 → Fin 6 → Tile) × Rng) (rc : Fin 5 × Fin 6) :
    (Fin 5 → Fin 6 → Tile) × Rng :=
  let tr := drawTile rc.1 rc.2 acc.2
  (fun i j => if i = rc.1 ∧ j = rc.2 then tr.1 else acc.1 i j, tr.2)

/-- The tile matrix built by `randomize_board`, threading the generator
row-major through every cell exactly as the nested `collect`s do. -/
def randomizeTiles (r : Rng) : (Fin 5 → Fin 6 → Tile) × Rng :=
  cellsRowMajor.foldl randStep (fun _ _ => Tile.wall, r)

/-- Rust's `RandomBoard::randomize_board()`: replace `self.board.tiles` with the
freshly drawn matrix. -/
def RandomBoard.randomize_board (rb : RandomBoard) : RandomBoard :=
  let tr := randomizeTiles rb.seed
  { board := { rb.board with tiles := tr.1 }, seed := tr.2 }

/-- The Rust `BoardState`: the live game board and the random board. -/
structure BoardState where
  board : Board
  random_board : RandomBoard

/-- The `random` handler: randomize the random board and answer 200 with its
rendering; the live game board is not touched. -/
def random (s : BoardState) : BoardState × Status × List Char :=
  let rb := s.random_board.randomize_board
  ({ s with random_board := rb }, Status.ok, rb.board.display)

/-- A wall position of the board: row 4, and columns 0 and 5 on rows 0..=3. -/
def wallPos (i : Fin 5) (j : Fin 6) : Prop :=
  (i.val ≤ 3 ∧ (j.val = 0 ∨ j.val = 5)) ∨ i.val = 4

instance (i : Fin 5) (j : Fin 6) : Decidable (wallPos i j) := by
  unfold wallPos; infer_instance

/-- An occupied tile. -/
def isTeamTile : Tile → Bool
| Tile.team _ => true
| _ => false

/-- The board invariant of the spec's data model: wall cells hold `Wall`,
every other cell holds `Empty` or a team tile. -/
def WF (b : Board) : Prop :=
  ∀ i j, (wallPos i j → b.tiles i j = Tile.wall) ∧
    (¬wallPos i j → b.tiles i j = Tile.empty ∨ isTeamTile (b.tiles i j) = true)

/-- A uniform playable row of team `t`, as the spec words it. -/
def rowWin (b : Board) (t : Team) : Prop :=
  ∃ r ∈ playable_rows, ∀ c ∈ playable_columns, b.tiles r c = Tile.team t

/-- A uniform playable column of team `t`, as the spec words it. -/
def colWin (b : Board) (t : Team) : Prop :=
  ∃ c ∈ playable_columns, ∀ r ∈ playable_rows, b.tiles r c = Tile.team t

/-- A uniform interior diagonal of team `t`, as the spec words it. -/
def diagWin (b : Board) (t : Team) : Prop :=
  (∀ rc ∈ playable_rows.zip playable_columns, b.tiles rc.1 rc.2 = Tile.team t) ∨
  (∀ rc ∈ playable_rows.zip playable_columns.reverse, b.tiles rc.1 rc.2 = Tile.team t)

/-- Some playable row, column or diagonal is uniformly occupied by one team. -/
def anyWin (b : Board) : Prop :=
  ∃ t : Team, rowWin b t ∨ colWin b t ∨ diagWin b t

/-- Every interior cell is occupied. -/
def interiorFull (b : Board) : Prop :=
  ∀ r ∈ playable_rows, ∀ c ∈ playable_columns, isTeamTile (b.tiles r c) = true

/-- One engine move as applied by the `place` handler. -/
def moveStep (b : Board) (m : Team × Nat) : Board := (place b m.1 m.2).board

/-- A sequence of `place` calls applied to a board. -/
def applyMoves (b : Board) (ms : List (Team × Nat)) : Board :=
  ms.foldl moveStep b

instance (b : Board) : Decidable (WF b) := by
  unfold WF; infer_instance

instance (b : Board) (t : Team) : Decidable (rowWin b t) := by
  unfold rowWin; infer_instance

instance (b : Board) (t : Team) : Decidable (colWin b t) := by
  unfold colWin; infer_instance

instance (b : Board) (t : Team) : Decidable (diagWin b t) := by
  unfold diagWin; infer_instance

instance (b : Board) : Decidable (anyWin b) := by
  unfold anyWin; infer_instance

instance (b : Board) : Decidable (interiorFull b) := by
  unfold interiorFull; infer_instance

lemma allRows_reverse : allRows.reverse = [4, 3, 2, 1, 0] := rfl

lemma tile_beq_decide (x y : Tile) : (x == y) = decide (x = y) := rfl

/-- Win detection never changes the tiles, only the result. -/
lemma set_winner_tiles (b : Board) : b.set_winner.tiles = b.tiles := by
  unfold Board.set_winner
  repeat' split
  all_goals rfl

/-- The scan `free_spot` returns a row whose cell is `Empty` and below which no cell
of the column is `Empty`: the deepest empty cell of the column. -/
lemma free_spot_deepest (b : Board) (col : Fin 6) (r : Fin 5)
    (h : b.free_spot col = some r) :
    b.tiles r col = Tile.empty ∧
      ∀ r2 : Fin 5, r < r2 → b.tiles r2 col ≠ Tile.empty := by
  rw [Board.free_spot, allRows_reverse] at h
  by_cases h4 : b.tiles 4 col = Tile.empty <;>
    by_cases h3 : b.tiles 3 col = Tile.empty <;>
      by_cases h2 : b.tiles 2 col = Tile.empty <;>
        by_cases h1 : b.tiles 1 col = Tile.empty <;>
          by_cases h0 : b.tiles 0 col = Tile.empty <;>
            simp [List.find?, tile_beq_decide, h4, h3, h2, h1, h0] at h <;>
              subst h <;>
                refine ⟨by assumption, fun r2 hlt => ?_⟩ <;>
                  fin_cases r2 <;>
                    first
                    | assumption
                    | exact absurd hlt (by decide)

/-- The handler's unknown-team test is dead code: `Team` is a closed enum. -/
lemma team_check (team : Team) : ¬(team ≠ Team.milk ∧ team ≠ Team.cookie) := by
  cases team <;> simp

/-- Calling `place` on a live board with a valid column and a free spot: the token is
placed, win detection runs, and the call succeeds. -/
lemma place_success (b : Board) (team : Team) (column : Nat)
    (h : 1 ≤ column ∧ column ≤ 4) (hw : b.winner = none) (r : Fin 5)
    (hr : b.free_spot ⟨column, by omega⟩ = some r) :
    place b team column =
      ⟨(b.place_team team r ⟨column, by omega⟩).set_winner, Status.ok,
        (b.place_team team r ⟨column, by omega⟩).set_winner.display⟩ := by
  unfold place
  rw [if_neg (team_check team), dif_pos h, hw]
  simp [hr]

/-- Calling `place` with an out-of-range column is rejected with 400 and an empty
body, before the board is read. -/
lemma place_bad_column (b : Board) (team : Team) (column : Nat)
    (h : ¬(1 ≤ column ∧ column ≤ 4)) :
    place b team column = ⟨b, Status.badRequest, []⟩ := by
  unfold place
  rw [if_neg (team_check team), dif_neg h]

/-- A terminal board used as a concrete input below. -/
def tieBoard : Board := { Board.new with winner := some Winner.tie }

/-- A board whose whole interior is occupied by cookie, used as a concrete
input below. -/
def fullCookie : Board where
  tiles := fun i j => if wallPos i j then Tile.wall else Tile.team Team.cookie
  winner := none

/-- C2: when a row win and another (column or diagonal) win hold at once,
win detection reports exactly one winner, the row one: the first satisfied
check in the fixed row → column → diagonal → tie order determines the
result. -/
theorem c2_win_precedence (b : Board) (hrow : b.winner_on_row.isSome = true)
    (hother : b.winner_on_column.isSome = true ∨
      b.winner_on_diagonal.isSome = true) :
    b.set_winner.winner = b.winner_on_row ∧
      b.set_winner.winner.isSome = true := by
  obtain ⟨w, hw⟩ := Option.isSome_iff_exists.mp hrow
  simp [Board.set_winner, hw]

theorem c2_witness :
    fullCookie.winner_on_row.isSome = true ∧
      fullCookie.winner_on_column.isSome = true ∧
      (fullCookie.set_winner.winner = fullCookie.winner_on_row ∧
        fullCookie.set_winner.winner.isSome = true) :=
  ⟨by decide, by decide,
    c2_win_precedence fullCookie (by decide) (Or.inl (by decide))⟩

/-- C4: on a terminal board (result `Win` or `Tie`) every further `place`
call leaves the board — tiles and result — unchanged, and, for any playable
column, answers 503 with the pre-existing terminal board rendered as the
body. -/
theorem c4_terminal_place_frozen (b : Board) (team : Team) (column : Nat)
    (hterm : b.winner.isSome = true) :
    (place b team column).board = b ∧
      (1 ≤ column ∧ column ≤ 4 →
        place b team column = ⟨b, Status.serviceUnavailable, b.display⟩) := by
  unfold place
  rw [if_neg (team_check team)]
  by_cases h : 1 ≤ column ∧ column ≤ 4
  · rw [dif_pos h, if_pos hterm]
    exact ⟨rfl, fun _ => rfl⟩
  · rw [dif_neg h]
    exact ⟨rfl, fun hc => absurd hc h⟩

theorem c4_witness :
    tieBoard.winner.isSome = true ∧
      (place tieBoard Team.cookie 1).board = tieBoard ∧
      (1 ≤ 1 ∧ 1 ≤ 4 →
        place tieBoard Team.cookie 1 =
          ⟨tieBoard, Status.serviceUnavailable, tieBoard.display⟩) :=
  ⟨rfl, (c4_terminal_place_frozen tieBoard Team.cookie 1 rfl).1,
    (c4_terminal_place_frozen tieBoard Team.cookie 1 rfl).2⟩

/-- C6: a `place` call with an unknown player identifier or a column outside
`[1,4]` is rejected with 400 and an empty body before any board state is
read or written, and that caller-error status is distinct from the 503
"unavailable" status and from success. -/
theorem c6_invalid_input_rejected :
    (∀ (b : Board) (team : Team) (column : Nat), ¬(1 ≤ column ∧ column ≤ 4) →
        place b team column = ⟨b, Status.badRequest, []⟩) ∧
    (∀ (s : String) (column : Nat) (b : Board), parseTeam s = none →
        placeRoute s column b = ⟨b, Status.badRequest, []⟩) ∧
    Status.badRequest ≠ Status.serviceUnavailable ∧
    Status.badRequest ≠ Status.ok := by
  refine ⟨fun b team column h => place_bad_column b team column h,
    fun s column b h => ?_, by decide, by decide⟩
  unfold placeRoute
  rw [h]

theorem c6_witness :
    ¬(1 ≤ 7 ∧ 7 ≤ 4) ∧
      place Board.new Team.cookie 7 = ⟨Board.new, Status.badRequest, []⟩ ∧
      parseTeam "grinch" = none ∧
      placeRoute "grinch" 2 Board.new = ⟨Board.new, Status.badRequest, []⟩ :=
  ⟨by decide, c6_invalid_input_rejected.1 Board.new Team.cookie 7 (by decide),
    by decide, c6_invalid_input_rejected.2.1 "grinch" 2 Board.new (by decide)⟩

/-- Writing a team tile onto an empty cell of a well-formed board keeps the
board well-formed. -/
lemma place_team_preserves_WF (b : Board) (team : Team) (r : Fin 5)
    (col : Fin 6) (hwf : WF b) (hempty : b.tiles r col = Tile.empty) :
    WF (b.place_team team r col) := by
  intro i j
  constructor
  · intro hwall
    have hne : ¬(i = r ∧ j = col) := by
      rintro ⟨rfl, rfl⟩
      have hw := (hwf i j).1 hwall
      rw [hw] at hempty
      exact absurd hempty (by decide)
    simp only [Board.place_team, if_neg hne]
    exact (hwf i j).1 hwall
  · intro hnw
    by_cases hij : i = r ∧ j = col
    · simp only [Board.place_team, if_pos hij]
      right
      cases team <;> rfl
    · simp only [Board.place_team, if_neg hij]
      exact (hwf i j).2 hnw

/-- The handler `place` preserves the board invariant, whatever the call's arguments or
outcome. -/
lemma place_preserves_WF (b : Board) (team : Team) (column : Nat)
    (hwf : WF b) : WF (place b team column).board := by
  unfold place
  rw [if_neg (team_check team)]
  by_cases h : 1 ≤ column ∧ column ≤ 4
  · rw [dif_pos h]
    by_cases hw : b.winner.isSome
    · rw [if_pos hw]
      exact hwf
    · rw [if_neg hw]
      split
      · rename_i r heq
        have hempty := (free_spot_deepest b _ r heq).1
        have hpt := place_team_preserves_WF b team r _ hwf hempty
        intro i j
        have ht := set_winner_tiles (b.place_team team r ⟨column, by omega⟩)
        refine ⟨fun hwall => ?_, fun hnw => ?_⟩
        · rw [ht]
          exact (hpt i j).1 hwall
        · rw [ht]
          exact (hpt i j).2 hnw
      · exact hwf
  · rw [dif_neg h]
    exact hwf

/-- C7: starting from `Board::new()`, after any sequence of `place` calls
every wall cell (row 4, and columns 0 and 5 on rows 0..=3) still holds
`Wall`, and every non-wall cell holds `Empty` or a team tile. -/
theorem c7_walls_immutable :
    (∀ (b : Board) (team : Team) (column : Nat), WF b →
        WF (place b team column).board) ∧
    (∀ ms : List (Team × Nat), WF (applyMoves Board.new ms)) := by
  refine ⟨fun b team column hwf => place_preserves_WF b team column hwf,
    fun ms => ?_⟩
  have haux : ∀ (l : List (Team × Nat)) (b : Board), WF b → WF (applyMoves b l) := by
    intro l
    induction l with
    | nil => exact fun b h => h
    | cons m tl ih => exact fun b h => ih _ (place_preserves_WF b m.1 m.2 h)
  exact haux ms Board.new (by decide)

theorem c7_witness :
    WF Board.new ∧ WF (place Board.new Team.cookie 2).board :=
  ⟨by decide, c7_walls_immutable.1 Board.new Team.cookie 2 (by decide)⟩

/-- C1: on any well-formed live board, `place` at a playable column drops the
token at the deepest (highest row index) empty cell of that column, which is
an interior row; concretely, from the empty board four placements at column 1
fill rows 3, 2, 1, 0 in that order, and a fifth placement at column 1 is
rejected as unavailable with the board unchanged. -/
theorem c1_gravity_drop :
    (∀ (b : Board) (team : Team) (column : Nat) (r : Fin 5),
        WF b → ∀ hcol : 1 ≤ column ∧ column ≤ 4, b.winner = none →
        b.free_spot ⟨column, by omega⟩ = some r →
        r.val ≤ 3 ∧ b.tiles r ⟨column, by omega⟩ = Tile.empty ∧
          (∀ r2 : Fin 5, r < r2 → b.tiles r2 ⟨column, by omega⟩ ≠ Tile.empty) ∧
          (place b team column).board.tiles r ⟨column, by omega⟩ =
            Tile.ofTeam team) ∧
    ((applyMoves Board.new [(Team.cookie, 1)]).tiles 3 1 =
        Tile.team Team.cookie ∧
      (applyMoves Board.new (List.replicate 2 (Team.cookie, 1))).tiles 2 1 =
        Tile.team Team.cookie ∧
      (applyMoves Board.new (List.replicate 3 (Team.cookie, 1))).tiles 1 1 =
        Tile.team Team.cookie ∧
      (applyMoves Board.new (List.replicate 4 (Team.cookie, 1))).tiles 0 1 =
        Tile.team Team.cookie ∧
      (place (applyMoves Board.new (List.replicate 4 (Team.cookie, 1)))
          Team.cookie 1).board =
        applyMoves Board.new (List.replicate 4 (Team.cookie, 1)) ∧
      (place (applyMoves Board.new (List.replicate 4 (Team.cookie, 1)))
          Team.cookie 1).status = Status.serviceUnavailable) := by
  constructor
  · intro b team column r hwf hcol hw hr
    obtain ⟨hempty, hmax⟩ := free_spot_deepest b _ r hr
    have hr3 : r.val ≤ 3 := by
      by_contra hc
      have h4 : r.val = 4 := by omega
      have hwall := (hwf r ⟨column, by omega⟩).1 (Or.inr h4)
      rw [hwall] at hempty
      exact absurd hempty (by decide)
    refine ⟨hr3, hempty, hmax, ?_⟩
    rw [place_success b team column hcol hw r hr]
    rw [set_winner_tiles]
    simp [Board.place_team]
  · exact ⟨rfl, rfl, rfl, rfl, rfl, rfl⟩

theorem c1_witness :
    WF Board.new ∧ (1 ≤ 1 ∧ 1 ≤ 4) ∧ Board.new.winner = none ∧
      Board.new.free_spot ⟨1, by omega⟩ = some 3 ∧
      ((3 : Fin 5).val ≤ 3 ∧ Board.new.tiles 3 ⟨1, by omega⟩ = Tile.empty ∧
        (∀ r2 : Fin 5, 3 < r2 → Board.new.tiles r2 ⟨1, by omega⟩ ≠ Tile.empty) ∧
        (place Board.new Team.milk 1).board.tiles 3 ⟨1, by omega⟩ =
          Tile.ofTeam Team.milk) :=
  ⟨by decide, by decide, rfl, by decide,
    c1_gravity_drop.1 Board.new Team.milk 1 3 (by decide) (by decide) rfl
      (by decide)⟩

/-- C10: a successful placement changes exactly the target cell, which
becomes the placing team's tile; every other tile of the board is unchanged
(win detection afterwards touches only the result field). -/
theorem c10_single_cell_frame (b : Board) (team : Team) (column : Nat)
    (r : Fin 5) (hcol : 1 ≤ column ∧ column ≤ 4) (hw : b.winner = none)
    (hr : b.free_spot ⟨column, by omega⟩ = some r) :
    (place b team column).board.tiles r ⟨column, by omega⟩ =
        Tile.ofTeam team ∧
      ∀ i j, ¬(i = r ∧ j = (⟨column, by omega⟩ : Fin 6)) →
        (place b team column).board.tiles i j = b.tiles i j := by
  rw [place_success b team column hcol hw r hr]
  constructor
  · rw [set_winner_tiles]
    simp [Board.place_team]
  · intro i j hij
    rw [set_winner_tiles]
    simp [Board.place_team, hij]

theorem c10_witness :
    (1 ≤ 2 ∧ 2 ≤ 4) ∧ Board.new.winner = none ∧
      Board.new.free_spot ⟨2, by omega⟩ = some 3 ∧
      ((place Board.new Team.milk 2).board.tiles 3 ⟨2, by omega⟩ =
          Tile.ofTeam Team.milk ∧
        ∀ i j, ¬(i = 3 ∧ j = (⟨2, by omega⟩ : Fin 6)) →
          (place Board.new Team.milk 2).board.tiles i j = Board.new.tiles i j) :=
  ⟨by decide, rfl, by decide,
    c10_single_cell_frame Board.new Team.milk 2 3 (by decide) rfl (by decide)⟩

lemma playable_not_wall :
    ∀ (r : Fin 5) (c : Fin 6), r ∈ playable_rows → c ∈ playable_columns →
      ¬wallPos r c := by
  decide

lemma not_wall_mem :
    ∀ (i : Fin 5) (j : Fin 6), ¬wallPos i j →
      i ∈ playable_rows ∧ j ∈ playable_columns := by
  decide

lemma mem_allRows : ∀ i : Fin 5, i ∈ allRows := by decide

lemma mem_allCols : ∀ j : Fin 6, j ∈ allCols := by decide

lemma rowPred_iff (b : Board) (row : Fin 5) :
    rowPred b row = true ↔
      (∀ c ∈ playable_columns, b.tiles row c = b.tiles row 1) ∧
        b.tiles row 1 ≠ Tile.empty := by
  simp [rowPred, Board.row_tiles, List.headI, playable_columns, tile_beq_decide]

lemma colPred_iff (b : Board) (col : Fin 6) :
    colPred b col = true ↔
      (∀ r ∈ playable_rows, b.tiles r col = b.tiles 0 col) ∧
        b.tiles 0 col ≠ Tile.empty := by
  simp [colPred, Board.column_tiles, List.headI, playable_rows, tile_beq_decide]

lemma zip_diag1 :
    playable_rows.zip playable_columns = [(0, 1), (1, 2), (2, 3), (3, 4)] := rfl

lemma zip_diag2 :
    playable_rows.zip playable_columns.reverse =
      [(0, 4), (1, 3), (2, 2), (3, 1)] := rfl

lemma first_diag_headI (b : Board) : b.first_diagonal.headI = b.tiles 0 1 := rfl

lemma last_diag_headI (b : Board) : b.last_diagonal.headI = b.tiles 0 4 := rfl

lemma first_diag_guard_iff (b : Board) :
    b.first_diag_guard = true ↔
      (∀ rc ∈ playable_rows.zip playable_columns,
          b.tiles rc.1 rc.2 = b.tiles 0 1) ∧ b.tiles 0 1 ≠ Tile.empty := by
  simp [Board.first_diag_guard, Board.first_diagonal, zip_diag1, List.headI,
    tile_beq_decide]

lemma last_diag_guard_iff (b : Board) :
    b.last_diag_guard = true ↔
      (∀ rc ∈ playable_rows.zip playable_columns.reverse,
          b.tiles rc.1 rc.2 = b.tiles 0 4) ∧ b.tiles 0 4 ≠ Tile.empty := by
  simp [Board.last_diag_guard, Board.last_diagonal, zip_diag2, List.headI,
    tile_beq_decide]

/-- On a well-formed board an interior cell that is not empty is a team
tile. -/
lemma interior_cell (b : Board) (hwf : WF b) (r : Fin 5) (c : Fin 6)
    (hr : r ∈ playable_rows) (hc : c ∈ playable_columns)
    (hne : b.tiles r c ≠ Tile.empty) : ∃ t, b.tiles r c = Tile.team t := by
  rcases (hwf r c).2 (playable_not_wall r c hr hc) with he | ht
  · exact absurd he hne
  · cases htile : b.tiles r c with
    | team t => exact ⟨t, rfl⟩
    | empty => exact absurd htile hne
    | wall => rw [htile] at ht; exact absurd ht (by decide)

lemma rowPred_team (b : Board) (row : Fin 5) (hwf : WF b)
    (hrow : row ∈ playable_rows) :
    rowPred b row = true ↔
      ∃ t, ∀ c ∈ playable_columns, b.tiles row c = Tile.team t := by
  rw [rowPred_iff]
  constructor
  · rintro ⟨hall, hne⟩
    obtain ⟨t, ht⟩ := interior_cell b hwf row 1 hrow (by decide) hne
    exact ⟨t, fun c hc => by rw [hall c hc, ht]⟩
  · rintro ⟨t, hu⟩
    have h1 : b.tiles row 1 = Tile.team t := hu 1 (by decide)
    exact ⟨fun c hc => by rw [hu c hc, h1], by rw [h1]; exact fun hx => by cases hx⟩

lemma colPred_team (b : Board) (col : Fin 6) (hwf : WF b)
    (hcol : col ∈ playable_columns) :
    colPred b col = true ↔
      ∃ t, ∀ r ∈ playable_rows, b.tiles r col = Tile.team t := by
  rw [colPred_iff]
  constructor
  · rintro ⟨hall, hne⟩
    obtain ⟨t, ht⟩ := interior_cell b hwf 0 col (by decide) hcol hne
    exact ⟨t, fun r hr => by rw [hall r hr, ht]⟩
  · rintro ⟨t, hu⟩
    have h0 : b.tiles 0 col = Tile.team t := hu 0 (by decide)
    exact ⟨fun r hr => by rw [hu r hr, h0], by rw [h0]; exact fun hx => by cases hx⟩

lemma first_diag_team (b : Board) (hwf : WF b) :
    b.first_diag_guard = true ↔
      ∃ t, ∀ rc ∈ playable_rows.zip playable_columns,
        b.tiles rc.1 rc.2 = Tile.team t := by
  rw [first_diag_guard_iff]
  constructor
  · rintro ⟨hall, hne⟩
    obtain ⟨t, ht⟩ := interior_cell b hwf 0 1 (by decide) (by decide) hne
    exact ⟨t, fun rc hrc => by rw [hall rc hrc, ht]⟩
  · rintro ⟨t, hu⟩
    have h0 : b.tiles 0 1 = Tile.team t := hu (0, 1) (by decide)
    exact ⟨fun rc hrc => by rw [hu rc hrc, h0],
      by rw [h0]; exact fun hx => by cases hx⟩

lemma last_diag_team (b : Board) (hwf : WF b) :
    b.last_diag_guard = true ↔
      ∃ t, ∀ rc ∈ playable_rows.zip playable_columns.reverse,
        b.tiles rc.1 rc.2 = Tile.team t := by
  rw [last_diag_guard_iff]
  constructor
  · rintro ⟨hall, hne⟩
    obtain ⟨t, ht⟩ := interior_cell b hwf 0 4 (by decide) (by decide) hne
    exact ⟨t, fun rc hrc => by rw [hall rc hrc, ht]⟩
  · rintro ⟨t, hu⟩
    have h0 : b.tiles 0 4 = Tile.team t := hu (0, 4) (by decide)
    exact ⟨fun rc hrc => by rw [hu rc hrc, h0],
      by rw [h0]; exact fun hx => by cases hx⟩

lemma winner_on_row_some (b : Board) (w : Winner)
    (h : b.winner_on_row = some w) : ∃ t, w = Winner.team t ∧ rowWin b t := by
  unfold Board.winner_on_row at h
  cases hfind : playable_rows.find? (rowPred b) with
  | none => rw [hfind] at h; simp at h
  | some row =>
    rw [hfind, Option.some_bind] at h
    have hpred := List.find?_some hfind
    have hmem := List.mem_of_find?_eq_some hfind
    obtain ⟨hall, hne⟩ := (rowPred_iff b row).mp hpred
    cases h1 : b.tiles row 1 with
    | team t =>
      rw [h1] at h
      simp at h
      exact ⟨t, h.symm, row, hmem, fun c hc => by rw [hall c hc, h1]⟩
    | empty => exact absurd h1 hne
    | wall => rw [h1] at h; simp at h

lemma winner_on_column_some (b : Board) (w : Winner)
    (h : b.winner_on_column = some w) : ∃ t, w = Winner.team t ∧ colWin b t := by
  unfold Board.winner_on_column at h
  cases hfind : playable_columns.find? (colPred b) with
  | none => rw [hfind] at h; simp at h
  | some col =>
    rw [hfind, Option.some_bind] at h
    have hpred := List.find?_some hfind
    have hmem := List.mem_of_find?_eq_some hfind
    obtain ⟨hall, hne⟩ := (colPred_iff b col).mp hpred
    cases h0 : b.tiles 0 col with
    | team t =>
      rw [h0] at h
      simp at h
      exact ⟨t, h.symm, col, hmem, fun r hr => by rw [hall r hr, h0]⟩
    | empty => exact absurd h0 hne
    | wall => rw [h0] at h; simp at h

lemma winner_on_diagonal_some (b : Board) (w : Winner)
    (h : b.winner_on_diagonal = some w) :
    ∃ t, w = Winner.team t ∧ diagWin b t := by
  unfold Board.winner_on_diagonal at h
  by_cases g1 : b.first_diag_guard = true
  · rw [if_pos g1, first_diag_headI] at h
    obtain ⟨hall, hne⟩ := (first_diag_guard_iff b).mp g1
    cases h1 : b.tiles 0 1 with
    | team t =>
      rw [h1] at h
      simp [Winner.ofTile] at h
      exact ⟨t, h.symm, Or.inl fun rc hrc => by rw [hall rc hrc, h1]⟩
    | empty => exact absurd h1 hne
    | wall => rw [h1] at h; simp [Winner.ofTile] at h
  · rw [if_neg g1] at h
    by_cases g2 : b.last_diag_guard = true
    · rw [if_pos g2, last_diag_headI] at h
      obtain ⟨hall, hne⟩ := (last_diag_guard_iff b).mp g2
      cases h4 : b.tiles 0 4 with
      | team t =>
        rw [h4] at h
        simp [Winner.ofTile] at h
        exact ⟨t, h.symm, Or.inr fun rc hrc => by rw [hall rc hrc, h4]⟩
      | empty => exact absurd h4 hne
      | wall => rw [h4] at h; simp [Winner.ofTile] at h
    · rw [if_neg g2] at h
      cases h

lemma winner_on_row_none_iff (b : Board) (hwf : WF b) :
    b.winner_on_row = none ↔ ∀ t, ¬ rowWin b t := by
  constructor
  · intro hnone t hwin
    obtain ⟨row, hrow, hu⟩ := hwin
    have hpred : rowPred b row = true :=
      (rowPred_team b row hwf hrow).mpr ⟨t, hu⟩
    unfold Board.winner_on_row at hnone
    cases hfind : playable_rows.find? (rowPred b) with
    | none =>
      have hf := List.find?_eq_none.mp hfind row hrow
      rw [hpred] at hf
      exact absurd rfl hf
    | some row2 =>
      rw [hfind, Option.some_bind] at hnone
      have hpred2 := List.find?_some hfind
      have hmem2 := List.mem_of_find?_eq_some hfind
      obtain ⟨t2, hu2⟩ := (rowPred_team b row2 hwf hmem2).mp hpred2
      have h1 : b.tiles row2 1 = Tile.team t2 := hu2 1 (by decide)
      rw [h1] at hnone
      simp at hnone
  · intro hall
    unfold Board.winner_on_row
    cases hfind : playable_rows.find? (rowPred b) with
    | none => rfl
    | some row =>
      have hpred := List.find?_some hfind
      have hmem := List.mem_of_find?_eq_some hfind
      obtain ⟨t, hu⟩ := (rowPred_team b row hwf hmem).mp hpred
      exact absurd ⟨row, hmem, hu⟩ (hall t)

lemma winner_on_column_none_iff (b : Board) (hwf : WF b) :
    b.winner_on_column = none ↔ ∀ t, ¬ colWin b t := by
  constructor
  · intro hnone t hwin
    obtain ⟨col, hcol, hu⟩ := hwin
    have hpred : colPred b col = true :=
      (colPred_team b col hwf hcol).mpr ⟨t, hu⟩
    unfold Board.winner_on_column at hnone
    cases hfind : playable_columns.find? (colPred b) with
    | none =>
      have hf := List.find?_eq_none.mp hfind col hcol
      rw [hpred] at hf
      exact absurd rfl hf
    | some col2 =>
      rw [hfind, Option.some_bind] at hnone
      have hpred2 := List.find?_some hfind
      have hmem2 := List.mem_of_find?_eq_some hfind
      obtain ⟨t2, hu2⟩ := (colPred_team b col2 hwf hmem2).mp hpred2
      have h0 : b.tiles 0 col2 = Tile.team t2 := hu2 0 (by decide)
      rw [h0] at hnone
      simp at hnone
  · intro hall
    unfold Board.winner_on_column
    cases hfind : playable_columns.find? (colPred b) with
    | none => rfl
    | some col =>
      have hpred := List.find?_some hfind
      have hmem := List.mem_of_find?_eq_some hfind
      obtain ⟨t, hu⟩ := (colPred_team b col hwf hmem).mp hpred
      exact absurd ⟨col, hmem, hu⟩ (hall t)

lemma winner_on_diagonal_none_iff (b : Board) (hwf : WF b) :
    b.winner_on_diagonal = none ↔ ∀ t, ¬ diagWin b t := by
  constructor
  · intro hnone t hwin
    unfold Board.winner_on_diagonal at hnone
    cases hwin with
    | inl hu =>
      have g1 : b.first_diag_guard = true := (first_diag_team b hwf).mpr ⟨t, hu⟩
      rw [if_pos g1, first_diag_headI] at hnone
      have h1 : b.tiles 0 1 = Tile.team t := hu (0, 1) (by decide)
      rw [h1] at hnone
      simp [Winner.ofTile] at hnone
    | inr hu =>
      by_cases g1 : b.first_diag_guard = true
      · rw [if_pos g1, first_diag_headI] at hnone
        obtain ⟨t1, hu1⟩ := (first_diag_team b hwf).mp g1
        have h1 : b.tiles 0 1 = Tile.team t1 := hu1 (0, 1) (by decide)
        rw [h1] at hnone
        simp [Winner.ofTile] at hnone
      · rw [if_neg g1] at hnone
        have g2 : b.last_diag_guard = true := (last_diag_team b hwf).mpr ⟨t, hu⟩
        rw [if_pos g2, last_diag_headI] at hnone
        have h4 : b.tiles 0 4 = Tile.team t := hu (0, 4) (by decide)
        rw [h4] at hnone
        simp [Winner.ofTile] at hnone
  · intro hall
    unfold Board.winner_on_diagonal
    by_cases g1 : b.first_diag_guard = true
    · obtain ⟨t, hu⟩ := (first_diag_team b hwf).mp g1
      exact absurd (Or.inl hu) (hall t)
    · rw [if_neg g1]
      by_cases g2 : b.last_diag_guard = true
      · obtain ⟨t, hu⟩ := (last_diag_team b hwf).mp g2
        exact absurd (Or.inr hu) (hall t)
      · rw [if_neg g2]

lemma board_full_iff_all (b : Board) :
    b.board_full = true ↔ ∀ i j, b.tiles i j ≠ Tile.empty := by
  simp [Board.board_full, List.any_eq_true, tile_beq_decide, mem_allRows,
    mem_allCols]

lemma board_full_iff (b : Board) (hwf : WF b) :
    b.board_full = true ↔ interiorFull b := by
  rw [board_full_iff_all]
  constructor
  · intro h r hr c hc
    obtain ⟨t, ht⟩ := interior_cell b hwf r c hr hc (h r c)
    rw [ht]
    rfl
  · intro h i j he
    by_cases hw : wallPos i j
    · have hwall := (hwf i j).1 hw
      rw [hwall] at he
      cases he
    · obtain ⟨hr, hc⟩ := not_wall_mem i j hw
      have ht := h i hr j hc
      rw [he] at ht
      exact absurd ht (by decide)

/-- C3: on a well-formed board, win detection reports `Tie` exactly when
every interior cell is occupied and no playable row, playable column or
interior diagonal is uniformly occupied by one team. -/
theorem c3_tie_iff (b : Board) (hwf : WF b) :
    b.set_winner.winner = some Winner.tie ↔ interiorFull b ∧ ¬ anyWin b := by
  constructor
  · intro h
    cases h1 : b.winner_on_row with
    | some w =>
      obtain ⟨t, rfl, hwin⟩ := winner_on_row_some b w h1
      simp [Board.set_winner, h1] at h
    | none =>
      cases h2 : b.winner_on_column with
      | some w =>
        obtain ⟨t, rfl, hwin⟩ := winner_on_column_some b w h2
        simp [Board.set_winner, h1, h2] at h
      | none =>
        cases h3 : b.winner_on_diagonal with
        | some w =>
          obtain ⟨t, rfl, hwin⟩ := winner_on_diagonal_some b w h3
          simp [Board.set_winner, h1, h2, h3] at h
        | none =>
          by_cases hf : b.board_full = true
          · refine ⟨(board_full_iff b hwf).mp hf, ?_⟩
            rintro ⟨t, hw | hw | hw⟩
            · exact (winner_on_row_none_iff b hwf).mp h1 t hw
            · exact (winner_on_column_none_iff b hwf).mp h2 t hw
            · exact (winner_on_diagonal_none_iff b hwf).mp h3 t hw
          · simp [Board.set_winner, h1, h2, h3, hf] at h
  · rintro ⟨hfull, hnowin⟩
    have h1 : b.winner_on_row = none :=
      (winner_on_row_none_iff b hwf).mpr fun t hw => hnowin ⟨t, Or.inl hw⟩
    have h2 : b.winner_on_column = none :=
      (winner_on_column_none_iff b hwf).mpr fun t hw =>
        hnowin ⟨t, Or.inr (Or.inl hw)⟩
    have h3 : b.winner_on_diagonal = none :=
      (winner_on_diagonal_none_iff b hwf).mpr fun t hw =>
        hnowin ⟨t, Or.inr (Or.inr hw)⟩
    have hf : b.board_full = true := (board_full_iff b hwf).mpr hfull
    simp [Board.set_winner, h1, h2, h3, hf]

theorem c3_witness :
    WF Board.new ∧
      (Board.new.set_winner.winner = some Winner.tie ↔
        interiorFull Board.new ∧ ¬ anyWin Board.new) :=
  ⟨by decide, c3_tie_iff Board.new (by decide)⟩

/-- C5: on a well-formed board a reported team win always comes from a
uniformly occupied playable row, column or diagonal — never from empty or
wall cells — and the diagonal tile-to-winner conversion (whose non-team
branch is a fatal error in the source) is only invoked on an occupied
tile. -/
theorem c5_win_soundness (b : Board) (hwf : WF b) :
    (∀ t : Team, b.set_winner.winner = some (Winner.team t) →
        rowWin b t ∨ colWin b t ∨ diagWin b t) ∧
    (b.first_diag_guard = true → isTeamTile b.first_diagonal.headI = true) ∧
    (b.last_diag_guard = true → isTeamTile b.last_diagonal.headI = true) := by
  refine ⟨fun t h => ?_, fun g1 => ?_, fun g2 => ?_⟩
  · cases h1 : b.winner_on_row with
    | some w =>
      obtain ⟨t2, rfl, hwin⟩ := winner_on_row_some b w h1
      simp [Board.set_winner, h1] at h
      subst h
      exact Or.inl hwin
    | none =>
      cases h2 : b.winner_on_column with
      | some w =>
        obtain ⟨t2, rfl, hwin⟩ := winner_on_column_some b w h2
        simp [Board.set_winner, h1, h2] at h
        subst h
        exact Or.inr (Or.inl hwin)
      | none =>
        cases h3 : b.winner_on_diagonal with
        | some w =>
          obtain ⟨t2, rfl, hwin⟩ := winner_on_diagonal_some b w h3
          simp [Board.set_winner, h1, h2, h3] at h
          subst h
          exact Or.inr (Or.inr hwin)
        | none =>
          by_cases hf : b.board_full = true <;>
            simp [Board.set_winner, h1, h2, h3, hf] at h
  · obtain ⟨t, hu⟩ := (first_diag_team b hwf).mp g1
    rw [first_diag_headI, hu (0, 1) (by decide)]
    rfl
  · obtain ⟨t, hu⟩ := (last_diag_team b hwf).mp g2
    rw [last_diag_headI, hu (0, 4) (by decide)]
    rfl

theorem c5_witness :
    WF fullCookie ∧
      fullCookie.set_winner.winner = some (Winner.team Team.cookie) ∧
      (rowWin fullCookie Team.cookie ∨ colWin fullCookie Team.cookie ∨
        diagWin fullCookie Team.cookie) :=
  ⟨by decide, by decide,
    (c5_win_soundness fullCookie (by decide)).1 Team.cookie (by decide)⟩

/-- What `randomize_board` may leave in a cell: `Wall` at wall positions, a
team tile everywhere else. -/
def cellProp (i : Fin 5) (j : Fin 6) (t : Tile) : Prop :=
  if wallPos i j then t = Tile.wall else isTeamTile t = true

lemma drawTile_prop (i : Fin 5) (j : Fin 6) (r : Rng) :
    cellProp i j (drawTile i j r).1 := by
  unfold cellProp drawTile wallPos
  by_cases h1 : i.val ≤ 3 ∧ (j.val = 0 ∨ j.val = 5)
  · simp [h1]
  · by_cases h2 : i.val = 4
    · simp [h1, h2]
    · have : ¬((i.val ≤ 3 ∧ (j.val = 0 ∨ j.val = 5)) ∨ i.val = 4) := by
        rintro (h | h) <;> contradiction
      simp only [if_neg h1, if_neg h2, if_neg this]
      cases (r.genBool).1 <;> rfl

lemma randomize_fold_cells (l : List (Fin 5 × Fin 6))
    (acc : (Fin 5 → Fin 6 → Tile) × Rng) (i : Fin 5) (j : Fin 6)
    (h : (i, j) ∈ l ∨ cellProp i j (acc.1 i j)) :
    cellProp i j ((l.foldl randStep acc).1 i j) := by
  induction l generalizing acc with
  | nil =>
    rcases h with h | h
    · cases h
    · exact h
  | cons rc tl ih =>
    rw [List.foldl_cons]
    apply ih
    by_cases hij : (i, j) = rc
    · right
      have hsplit : i = rc.1 ∧ j = rc.2 := by
        rw [← hij]
        exact ⟨rfl, rfl⟩
      simp only [randStep, if_pos hsplit]
      rw [hsplit.1, hsplit.2]
      exact drawTile_prop rc.1 rc.2 acc.2
    · rcases h with h | h
      · rcases List.mem_cons.mp h with h | h
        · exact absurd h hij
        · exact Or.inl h
      · right
        by_cases hsplit : i = rc.1 ∧ j = rc.2
        · exact absurd (by rw [Prod.ext_iff]; exact hsplit) hij
        · simp only [randStep, if_neg hsplit]
          exact h

lemma mem_cellsRowMajor : ∀ (i : Fin 5) (j : Fin 6), (i, j) ∈ cellsRowMajor := by
  decide

lemma randomizeTiles_cells (r : Rng) (i : Fin 5) (j : Fin 6) :
    cellProp i j ((randomizeTiles r).1 i j) :=
  randomize_fold_cells cellsRowMajor _ i j (Or.inl (mem_cellsRowMajor i j))

/-- C8: the `random` handler fills every interior cell of the random board
with one of the two teams (no `Empty` cell remains), keeps the wall border
intact, and neither reads nor changes the live game board. -/
theorem c8_randomize_full (s : BoardState) :
    (random s).1.board = s.board ∧
      (∀ b2 : Board, (random { s with board := b2 }).2 = (random s).2) ∧
      (∀ i j, ¬wallPos i j →
        isTeamTile ((random s).1.random_board.board.tiles i j) = true) ∧
      (∀ i j, wallPos i j →
        (random s).1.random_board.board.tiles i j = Tile.wall) := by
  refine ⟨rfl, fun b2 => rfl, fun i j hnw => ?_, fun i j hw => ?_⟩
  · have h := randomizeTiles_cells s.random_board.seed i j
    rw [cellProp, if_neg hnw] at h
    exact h
  · have h := randomizeTiles_cells s.random_board.seed i j
    rw [cellProp, if_pos hw] at h
    exact h

/-- A concrete session state used as input below. -/
def initState : BoardState where
  board := Board.new
  random_board := { board := Board.new, seed := { stream := fun _ => true, idx := 0 } }

theorem c8_witness :
    (random initState).1.board = initState.board ∧
      ¬wallPos 1 2 ∧
      isTeamTile ((random initState).1.random_board.board.tiles 1 2) = true ∧
      wallPos 4 0 ∧
      (random initState).1.random_board.board.tiles 4 0 = Tile.wall :=
  ⟨(c8_randomize_full initState).1, by decide,
    (c8_randomize_full initState).2.2.1 1 2 (by decide), by decide,
    (c8_randomize_full initState).2.2.2 4 0 (by decide)⟩

lemma glyph_not_ws : ∀ t : Tile, (Tile.glyph t).isWhitespace = false := by
  decide

/-- Trimming a character list that starts and ends with non-whitespace
characters is the identity. -/
lemma rustTrim_sandwich (a c : Char) (m : List Char)
    (ha : a.isWhitespace = false) (hc : c.isWhitespace = false) :
    rustTrim (a :: (m ++ [c])) = a :: (m ++ [c]) := by
  unfold rustTrim
  have h1 : (a :: (m ++ [c])).dropWhile Char.isWhitespace = a :: (m ++ [c]) := by
    rw [List.dropWhile_cons_of_neg (by simp [ha])]
  have h2 : (a :: (m ++ [c])).reverse = c :: (m.reverse ++ [a]) := by
    simp
  rw [h1, h2, List.dropWhile_cons_of_neg (by simp [hc]), ← h2,
    List.reverse_reverse]

/-- The rendered grid written out cell by cell: it starts with the glyph of
`tiles[0][0]` and ends with the glyph of `tiles[4][5]`. -/
lemma grid_shape (b : Board) :
    b.grid = (b.tiles 0 0).glyph ::
      ([(b.tiles 0 1).glyph, (b.tiles 0 2).glyph, (b.tiles 0 3).glyph,
        (b.tiles 0 4).glyph, (b.tiles 0 5).glyph, '\n',
        (b.tiles 1 0).glyph, (b.tiles 1 1).glyph, (b.tiles 1 2).glyph,
        (b.tiles 1 3).glyph, (b.tiles 1 4).glyph, (b.tiles 1 5).glyph, '\n',
        (b.tiles 2 0).glyph, (b.tiles 2 1).glyph, (b.tiles 2 2).glyph,
        (b.tiles 2 3).glyph, (b.tiles 2 4).glyph, (b.tiles 2 5).glyph, '\n',
        (b.tiles 3 0).glyph, (b.tiles 3 1).glyph, (b.tiles 3 2).glyph,
        (b.tiles 3 3).glyph, (b.tiles 3 4).glyph, (b.tiles 3 5).glyph, '\n',
        (b.tiles 4 0).glyph, (b.tiles 4 1).glyph, (b.tiles 4 2).glyph,
        (b.tiles 4 3).glyph, (b.tiles 4 4).glyph] ++
        [(b.tiles 4 5).glyph]) := rfl

/-- The board's rendered grid never starts or ends with whitespace, so the
`trim` in `Display for Board` leaves it unchanged. -/
lemma grid_trim (b : Board) : rustTrim b.grid = b.grid := by
  rw [grid_shape b]
  exact rustTrim_sandwich _ _ _ (glyph_not_ws _) (glyph_not_ws _)

/-- C9: rendering a board yields exactly the glyph rows joined row-major by
newlines (the trim of trailing whitespace is a no-op on the glyph grid), with
a trailing result line (`"<player> wins!"` or `"No winner."`) appended if and
only if the game has reached a terminal result. -/
theorem c9_render_shape (b : Board) :
    (b.winner = none → b.display = b.grid ++ ['\n']) ∧
    (∀ w, b.winner = some w →
      b.display = b.grid ++ '\n' :: (w.display ++ ['\n'])) := by
  constructor
  · intro h
    simp only [Board.display, h, grid_trim]
  · intro w h
    simp only [Board.display, h, grid_trim]

theorem c9_witness :
    (Board.new.winner = none ∧
        Board.new.display = Board.new.grid ++ ['\n']) ∧
      (tieBoard.winner = some Winner.tie ∧
        tieBoard.display =
          tieBoard.grid ++ '\n' :: (Winner.tie.display ++ ['\n'])) :=
  ⟨⟨rfl, (c9_render_shape Board.new).1 rfl⟩,
    ⟨rfl, (c9_render_shape tieBoard).2 Winner.tie rfl⟩⟩

end Day12
